import Mathlib

/-!
Verification of the CoverAggregator component of sp2vc (src/sp2vc/prep_veg.py).

The embedding models the values flowing through `bb2percent` and
`aggregate_cover`.  A cell of the Braun-Blanquet column is either a Python
string or a Python number; Python floats are modelled by exact rationals
(every constant in the lookup table and every claim is about exact decimal
values, so no rounding behaviour is relevant).  Missing values (`None` /
`NaN` cells) are modelled by `Option`.  Fallible code is modelled with
`Except`, carrying the offending value the way CPython's
`ValueError: could not convert string to float: ...` does.
-/

namespace Sp2vc

/-- A value stored in the Braun-Blanquet cover column: a Python string or a
Python number (int/float, modelled as an exact rational). -/
inductive BBElem where
  | str (s : String)
  | num (q : ℚ)
deriving DecidableEq, Repr

/-- Digit characters to the natural number they denote in base 10. -/
def digitsToNat (ds : List Char) : ℕ :=
  ds.foldl (fun n c => 10 * n + (c.toNat - 48)) 0

/-- Split a character list into its leading run of decimal digits and the
rest. -/
def splitDigits (cs : List Char) : List Char × List Char :=
  (cs.takeWhile Char.isDigit, cs.dropWhile Char.isDigit)

/-- Parse an optional exponent suffix (`e`/`E`, optional sign, digits) that
must consume the whole remaining input; `[]` means exponent `0`. -/
def parseExp : List Char → Option ℤ
  | [] => some 0
  | c :: t =>
    if c = 'e' ∨ c = 'E' then
      let sgt : ℤ × List Char :=
        match t with
        | '-' :: u => (-1, u)
        | '+' :: u => (1, u)
        | _ => (1, t)
      let dsr := splitDigits sgt.2
      if dsr.1.isEmpty || !dsr.2.isEmpty then none
      else some (sgt.1 * (digitsToNat dsr.1 : ℤ))
    else none

/-- Models CPython `float(s)` on decimal literals: optional sign, digits
with an optional fractional part (at least one digit overall), and an
optional exponent.  Returns the exact rational value.  Special forms
accepted by CPython (`inf`, `nan`, surrounding whitespace, `_` digit
separators) are outside the model; no claim exercises them. -/
def parseDecimal (s : String) : Option ℚ :=
  let cs := s.toList
  let sgn : ℚ × List Char :=
    match cs with
    | '-' :: t => (-1, t)
    | '+' :: t => (1, t)
    | _ => (1, cs)
  let ipr := splitDigits sgn.2
  let fpr :=
    match ipr.2 with
    | '.' :: t => splitDigits t
    | _ => ([], ipr.2)
  if ipr.1.isEmpty && fpr.1.isEmpty then none
  else
    match parseExp fpr.2 with
    | none => none
    | some e =>
      let mant : ℚ := (digitsToNat ipr.1 : ℚ) + (digitsToNat fpr.1 : ℚ) / (10 : ℚ) ^ fpr.1.length
      some (sgn.1 * mant * (10 : ℚ) ^ e)

/-- One substitution pass of `bb2percent`
(`bb = [val if b == code else b for b in bb]`): a string cell equal to
`code` becomes the float `val`, every other cell is kept. -/
def subst (code : String) (val : ℚ) (b : BBElem) : BBElem :=
  if b = BBElem.str code then BBElem.num val else b

/-- `float(b)` applied to one cell: a number is returned unchanged, a string
is parsed as a decimal literal, and an unparseable string raises carrying
the offending value (CPython's `ValueError` message names the value). -/
def float1 (b : BBElem) : Except String ℚ :=
  match b with
  | BBElem.num q => Except.ok q
  | BBElem.str s =>
    match parseDecimal s with
    | some q => Except.ok q
    | none => Except.error s

/-- The seventh pass of `bb2percent`
(`bb = [0.1 if b == "r" else float(b) for b in bb]`): elements are
processed left to right and the first `float` failure aborts the whole
pass with no partial list. -/
def pass7 : List BBElem → Except String (List ℚ)
  | [] => Except.ok []
  | b :: rest =>
    match (if b = BBElem.str "r" then Except.ok (0.1 : ℚ) else float1 b) with
    | Except.error e => Except.error e
    | Except.ok q =>
      match pass7 rest with
      | Except.error e => Except.error e
      | Except.ok qs => Except.ok (q :: qs)

/-- Embedding of `bb2percent` (src/sp2vc/prep_veg.py, lines 111-119): six
whole-list substitution passes for the codes "5","4","3","2","1","+", then
a final pass replacing "r" by 0.1 and coercing everything else with
`float`. -/
def bb2percent (bb : List BBElem) : Except String (List ℚ) :=
  let bb1 := bb.map (subst "5" 87.5)
  let bb2 := bb1.map (subst "4" 62.5)
  let bb3 := bb2.map (subst "3" 37.5)
  let bb4 := bb3.map (subst "2" 17.5)
  let bb5 := bb4.map (subst "1" 6.5)
  let bb6 := bb5.map (subst "+" 0.5)
  pass7 bb6

/-- The seven reserved Braun-Blanquet symbols. -/
def reservedCodes : List String := ["5", "4", "3", "2", "1", "+", "r"]

/-- Per-element view of the conversion: the table lookup for the seven
reserved symbols, then the decimal parse, else failure carrying the value.
Used to state per-index properties; `bb2percent_eq_mapExcept` proves the
source's seven sequential passes compute exactly this per element. -/
def codeToPercent1 (b : BBElem) : Except String ℚ :=
  match b with
  | BBElem.num q => Except.ok q
  | BBElem.str s =>
    if s = "5" then Except.ok 87.5
    else if s = "4" then Except.ok 62.5
    else if s = "3" then Except.ok 37.5
    else if s = "2" then Except.ok 17.5
    else if s = "1" then Except.ok 6.5
    else if s = "+" then Except.ok 0.5
    else if s = "r" then Except.ok 0.1
    else
      match parseDecimal s with
      | some q => Except.ok q
      | none => Except.error s

/-- Left-to-right effectful map over `Except`, failing at the first error. -/
def mapExcept (f : BBElem → Except String ℚ) : List BBElem → Except String (List ℚ)
  | [] => Except.ok []
  | b :: rest =>
    match f b with
    | Except.error e => Except.error e
    | Except.ok q =>
      match mapExcept f rest with
      | Except.error e => Except.error e
      | Except.ok qs => Except.ok (q :: qs)

/-- The six substitution passes fused into one per-element function. -/
def substAll (b : BBElem) : BBElem :=
  subst "+" 0.5 (subst "1" 6.5 (subst "2" 17.5 (subst "3" 37.5 (subst "4" 62.5 (subst "5" 87.5 b)))))

theorem substAll_then_pass7_head (b : BBElem) :
    (if substAll b = BBElem.str "r" then Except.ok (0.1 : ℚ) else float1 (substAll b)) =
      codeToPercent1 b := by
  cases b with
  | num q => simp [substAll, subst, float1, codeToPercent1]
  | str s =>
    by_cases h5 : s = "5"
    · simp [substAll, subst, codeToPercent1, float1, h5]
    · by_cases h4 : s = "4"
      · simp [substAll, subst, codeToPercent1, float1, h5, h4]
      · by_cases h3 : s = "3"
        · simp [substAll, subst, codeToPercent1, float1, h5, h4, h3]
        · by_cases h2 : s = "2"
          · simp [substAll, subst, codeToPercent1, float1, h5, h4, h3, h2]
          · by_cases h1 : s = "1"
            · simp [substAll, subst, codeToPercent1, float1, h5, h4, h3, h2, h1]
            · by_cases hp : s = "+"
              · simp [substAll, subst, codeToPercent1, float1, h5, h4, h3, h2, h1, hp]
              · by_cases hr : s = "r"
                · simp [substAll, subst, codeToPercent1, float1, h5, h4, h3, h2, h1, hp, hr]
                · simp [substAll, subst, codeToPercent1, float1, h5, h4, h3, h2, h1, hp, hr]

theorem bb2percent_eq_mapExcept (bb : List BBElem) :
    bb2percent bb = mapExcept codeToPercent1 bb := by
  induction bb with
  | nil => rfl
  | cons b rest ih =>
    have hrest : pass7 (((((rest.map (subst "5" 87.5)).map (subst "4" 62.5)).map
        (subst "3" 37.5)).map (subst "2" 17.5)).map (subst "1" 6.5) |>.map (subst "+" 0.5)) =
        mapExcept codeToPercent1 rest := ih
    show pass7 _ = _
    simp only [List.map_cons]
    show pass7 (substAll b :: _) = _
    rw [pass7, substAll_then_pass7_head b, mapExcept, hrest]

instance decEqExcept {ε α : Type} [DecidableEq ε] [DecidableEq α] :
    DecidableEq (Except ε α) := fun x y =>
  match x, y with
  | Except.error a, Except.error b =>
    if h : a = b then Decidable.isTrue (by rw [h]) else Decidable.isFalse (by simp [h])
  | Except.ok a, Except.ok b =>
    if h : a = b then Decidable.isTrue (by rw [h]) else Decidable.isFalse (by simp [h])
  | Except.error _, Except.ok _ => Decidable.isFalse (by simp)
  | Except.ok _, Except.error _ => Decidable.isFalse (by simp)

theorem bb2percent_cons (b : BBElem) (l : List BBElem) :
    bb2percent (b :: l) =
      (match codeToPercent1 b with
       | Except.error e => Except.error e
       | Except.ok q =>
         match bb2percent l with
         | Except.error e => Except.error e
         | Except.ok qs => Except.ok (q :: qs)) := by
  rw [bb2percent_eq_mapExcept, bb2percent_eq_mapExcept, mapExcept]

theorem mapExcept_ok_spec (f : BBElem → Except String ℚ) :
    ∀ (l : List BBElem) (vals : List ℚ), mapExcept f l = Except.ok vals →
      vals.length = l.length ∧
      ∀ (i : ℕ) (h1 : i < l.length) (h2 : i < vals.length),
        f (l.get ⟨i, h1⟩) = Except.ok (vals.get ⟨i, h2⟩) := by
  intro l
  induction l with
  | nil =>
    intro vals h
    rw [mapExcept] at h
    cases h
    exact ⟨rfl, fun i h1 _ => absurd h1 (Nat.not_lt_zero i)⟩
  | cons b rest ih =>
    intro vals h
    rw [mapExcept] at h
    cases hb : f b with
    | error e => rw [hb] at h; cases h
    | ok q =>
      rw [hb] at h
      cases hrest : mapExcept f rest with
      | error e => rw [hrest] at h; cases h
      | ok qs =>
        rw [hrest] at h
        cases h
        obtain ⟨hlen, hidx⟩ := ih qs hrest
        refine ⟨by simp [hlen], ?_⟩
        intro i h1 h2
        cases i with
        | zero => exact hb
        | succ n =>
          exact hidx n (Nat.lt_of_succ_lt_succ h1) (Nat.lt_of_succ_lt_succ h2)

theorem codeToPercent1_reserved_ok (s : String) (hres : s ∈ reservedCodes) :
    ∃ v, codeToPercent1 (BBElem.str s) = Except.ok v := by
  simp only [reservedCodes] at hres
  fin_cases hres <;> exact ⟨_, rfl⟩

theorem codeToPercent1_str_not_reserved (s : String) (hres : s ∉ reservedCodes) :
    codeToPercent1 (BBElem.str s) =
      (match parseDecimal s with
       | some q => Except.ok q
       | none => Except.error s) := by
  simp only [reservedCodes, List.mem_cons, List.not_mem_nil, or_false, not_or] at hres
  obtain ⟨n5, n4, n3, n2, n1, np, nr⟩ := hres
  simp [codeToPercent1, n5, n4, n3, n2, n1, np, nr]

theorem codeToPercent1_error_elim (b : BBElem) (t : String)
    (h : codeToPercent1 b = Except.error t) :
    b = BBElem.str t ∧ t ∉ reservedCodes ∧ parseDecimal t = none := by
  cases b with
  | num q => exact absurd h (by simp [codeToPercent1])
  | str s =>
    by_cases hres : s ∈ reservedCodes
    · obtain ⟨v, hv⟩ := codeToPercent1_reserved_ok s hres
      rw [hv] at h
      cases h
    · rw [codeToPercent1_str_not_reserved s hres] at h
      cases hps : parseDecimal s with
      | some q => rw [hps] at h; cases h
      | none =>
        rw [hps] at h
        injection h with hst
        subst hst
        exact ⟨rfl, hres, hps⟩

/-- C2: for every code in the closed set {"5","4","3","2","1","+","r"},
the conversion maps it to exactly 87.5, 62.5, 37.5, 17.5, 6.5, 0.5 and 0.1
respectively. -/
theorem bb2percent_table :
    bb2percent [BBElem.str "5"] = Except.ok [(87.5 : ℚ)] ∧
    bb2percent [BBElem.str "4"] = Except.ok [(62.5 : ℚ)] ∧
    bb2percent [BBElem.str "3"] = Except.ok [(37.5 : ℚ)] ∧
    bb2percent [BBElem.str "2"] = Except.ok [(17.5 : ℚ)] ∧
    bb2percent [BBElem.str "1"] = Except.ok [(6.5 : ℚ)] ∧
    bb2percent [BBElem.str "+"] = Except.ok [(0.5 : ℚ)] ∧
    bb2percent [BBElem.str "r"] = Except.ok [(0.1 : ℚ)] ∧
    bb2percent [BBElem.str "5", BBElem.str "4", BBElem.str "3", BBElem.str "2",
        BBElem.str "1", BBElem.str "+", BBElem.str "r"] =
      Except.ok [(87.5 : ℚ), 62.5, 37.5, 17.5, 6.5, 0.5, 0.1] :=
  ⟨rfl, rfl, rfl, rfl, rfl, rfl, rfl, rfl⟩

/-- C3: a string code outside the reserved seven-symbol set that parses as
a decimal number is converted to its parsed value unchanged, and the table
lookup takes precedence over numeric parsing for the reserved symbols:
"5" yields 87.5 even though it also parses as the number 5. -/
theorem bb2percent_numeric_string (s : String) (q : ℚ) (l : List BBElem)
    (hres : s ∉ reservedCodes) (hp : parseDecimal s = some q) :
    bb2percent (BBElem.str s :: l) = Except.map (fun r => q :: r) (bb2percent l) ∧
    bb2percent [BBElem.str "5"] = Except.ok [(87.5 : ℚ)] ∧
    parseDecimal "5" = some 5 := by
  refine ⟨?_, rfl, ?_⟩
  · rw [bb2percent_cons, codeToPercent1_str_not_reserved s hres, hp]
    cases hbl : bb2percent l <;> simp [Except.map]
  · show some ((1 : ℚ) * ((↑(5 : ℕ)) + ↑(0 : ℕ) / (10 : ℚ) ^ (0 : ℕ)) * (10 : ℚ) ^ (0 : ℤ)) =
      some 5
    norm_num

theorem bb2percent_numeric_string_app :
    bb2percent [BBElem.str "12.5"] =
      Except.map (fun r => (25 / 2 : ℚ) :: r) (bb2percent []) ∧
    bb2percent [BBElem.str "5"] = Except.ok [(87.5 : ℚ)] ∧
    parseDecimal "5" = some 5 :=
  bb2percent_numeric_string "12.5" (25 / 2) [] (by decide)
    (by
      show some ((1 : ℚ) * ((↑(12 : ℕ)) + ↑(5 : ℕ) / (10 : ℚ) ^ (1 : ℕ)) * (10 : ℚ) ^ (0 : ℤ)) =
        some (25 / 2)
      norm_num)

/-- C4 counterexample: the failure raised for a non-numeric, non-reserved
code carries exactly the offending value, and is the same whether that
value sits at index 0 or at index 1 of the input; the error therefore
cannot name the offending index, refuting that part of the claim. -/
theorem bb2percent_error_lacks_index :
    bb2percent [BBElem.str "abc"] = Except.error "abc" ∧
    bb2percent [BBElem.num 0, BBElem.str "abc"] = Except.error "abc" :=
  ⟨rfl, rfl⟩

/-- C4 amended: for any input containing a code that is neither reserved
nor parseable as a decimal number, the whole call fails with an error
naming an offending value (not its index), and no partial result list is
returned. -/
theorem bb2percent_invalid_fatal (l : List BBElem) (s : String)
    (hmem : BBElem.str s ∈ l) (hres : s ∉ reservedCodes)
    (hp : parseDecimal s = none) :
    ∃ t, bb2percent l = Except.error t ∧ BBElem.str t ∈ l ∧
      t ∉ reservedCodes ∧ parseDecimal t = none := by
  induction l with
  | nil => exact absurd hmem (List.not_mem_nil _)
  | cons b rest ih =>
    rw [bb2percent_cons]
    cases hcb : codeToPercent1 b with
    | error t =>
      obtain ⟨hb, htres, htp⟩ := codeToPercent1_error_elim b t hcb
      exact ⟨t, rfl, by rw [hb]; exact List.mem_cons_self _ _, htres, htp⟩
    | ok q =>
      rcases List.mem_cons.mp hmem with hhead | htail
      · have hbad : codeToPercent1 b = Except.error s := by
          rw [← hhead] at *
          rw [hhead, codeToPercent1_str_not_reserved s hres, hp]
        rw [hbad] at hcb
        cases hcb
      · obtain ⟨t, ht, htmem, htres, htp⟩ := ih htail
        exact ⟨t, by rw [ht], List.mem_cons_of_mem _ htmem, htres, htp⟩

theorem bb2percent_invalid_fatal_app :
    ∃ t, bb2percent [BBElem.str "abc"] = Except.error t ∧
      BBElem.str t ∈ [BBElem.str "abc"] ∧
      t ∉ reservedCodes ∧ parseDecimal t = none :=
  bb2percent_invalid_fatal [BBElem.str "abc"] "abc" (by decide) (by decide) rfl

/-- C9: the conversion is type-sensitive: a cell that is already a number
is passed through float coercion unchanged and the seven-code table is not
applied, so a numeric 5 yields 5, not 87.5. -/
theorem bb2percent_numeric_value (q : ℚ) (l : List BBElem) :
    bb2percent (BBElem.num q :: l) = Except.map (fun r => q :: r) (bb2percent l) ∧
    bb2percent [BBElem.num 5] = Except.ok [(5 : ℚ)] ∧
    bb2percent [BBElem.num 5] ≠ Except.ok [(87.5 : ℚ)] := by
  refine ⟨?_, rfl, ?_⟩
  · rw [bb2percent_cons]
    show (match bb2percent l with
          | Except.error e => Except.error e
          | Except.ok qs => Except.ok (q :: qs)) = _
    cases hbl : bb2percent l <;> simp [Except.map]
  · intro h
    have h5 : bb2percent [BBElem.num 5] = Except.ok [(5 : ℚ)] := rfl
    rw [h5] at h
    simp only [Except.ok.injEq, List.cons.injEq, and_true] at h
    exact absurd h (by norm_num)

/-- A heap of Python list objects, addressed by allocation order.  Cells
hold `BBElem` values; the result list of `bb2percent` is stored as `num`
cells. -/
structure ListHeap where
  cells : List (List BBElem)

/-- Contents of the list object at address `a` (unused addresses read as
empty). -/
def ListHeap.get (h : ListHeap) (a : ℕ) : List BBElem :=
  h.cells.getD a []

/-- Allocate a fresh list object, returning the new heap and its address. -/
def ListHeap.alloc (h : ListHeap) (v : List BBElem) : ListHeap × ℕ :=
  (⟨h.cells ++ [v]⟩, h.cells.length)

/-- Statement-by-statement embedding of `bb2percent` at the level of list
objects: each of the seven comprehensions reads the list currently bound
to the local name `bb` and allocates a fresh list, rebinding the local;
no statement writes into an existing object, so the caller's argument
object is never touched.  The final comprehension may raise, in which
case no result object is produced. -/
def bb2percentHeap (h : ListHeap) (arg : ℕ) : ListHeap × Except String ℕ :=
  let s1 := h.alloc ((h.get arg).map (subst "5" 87.5))
  let s2 := s1.1.alloc ((s1.1.get s1.2).map (subst "4" 62.5))
  let s3 := s2.1.alloc ((s2.1.get s2.2).map (subst "3" 37.5))
  let s4 := s3.1.alloc ((s3.1.get s3.2).map (subst "2" 17.5))
  let s5 := s4.1.alloc ((s4.1.get s4.2).map (subst "1" 6.5))
  let s6 := s5.1.alloc ((s5.1.get s5.2).map (subst "+" 0.5))
  match pass7 (s6.1.get s6.2) with
  | Except.error e => (s6.1, Except.error e)
  | Except.ok qs =>
    let s7 := s6.1.alloc (qs.map BBElem.num)
    (s7.1, Except.ok s7.2)

theorem getD_alloc_new (cs : List (List BBElem)) (v : List BBElem) :
    (cs ++ [v]).getD cs.length [] = v := by
  rw [List.getD_append_right _ _ _ _ (le_refl _)]
  simp

theorem getD_alloc_old (cs ex : List (List BBElem)) (a : ℕ) (ha : a < cs.length) :
    (cs ++ ex).getD a [] = cs.getD a [] :=
  List.getD_append _ _ _ _ ha

/-- C10: `bb2percent` never mutates the list passed to it.  At the heap
level the call leaves the caller's list object unchanged, whether it
returns a result or raises, and it raises exactly when the value-level
function does. -/
theorem bb2percent_no_mutation (h : ListHeap) (arg : ℕ) (ha : arg < h.cells.length) :
    ((bb2percentHeap h arg).1).get arg = h.get arg ∧
    (∀ e, (bb2percentHeap h arg).2 = Except.error e ↔
      bb2percent (h.get arg) = Except.error e) := by
  simp only [bb2percentHeap, ListHeap.alloc, ListHeap.get, getD_alloc_new, bb2percent]
  cases hp7 : pass7 ((((((h.cells.getD arg []).map (subst "5" 87.5)).map
      (subst "4" 62.5)).map (subst "3" 37.5)).map (subst "2" 17.5)).map
      (subst "1" 6.5) |>.map (subst "+" 0.5)) with
  | error e =>
    constructor
    · simp only [List.append_assoc]
      rw [getD_alloc_old _ _ _ ha]
    · intro e2
      simp
  | ok qs =>
    constructor
    · simp only [List.append_assoc]
      rw [getD_alloc_old _ _ _ ha]
    · intro e2
      simp

theorem bb2percent_no_mutation_app :
    ((bb2percentHeap ⟨[[BBElem.str "5"]]⟩ 0).1).get 0 = ListHeap.get ⟨[[BBElem.str "5"]]⟩ 0 :=
  (bb2percent_no_mutation ⟨[[BBElem.str "5"]]⟩ 0 (by decide)).1

/-- A cell of the cover-code input: a string or number, or null/NaN. -/
abbrev CodeCell := Option BBElem

/-- The two failure classes of the aggregation (spec section 7). -/
inductive AggError where
  | lengthMismatch
  | invalidCoverCode (value : String)
deriving DecidableEq, Repr

/-- Modelled from the spec: the source `aggregate_cover`
(src/sp2vc/prep_veg.py, lines 121-151) is cut off mid-assignment at line
151, before the combined cover is produced, and its null-filling and
final statements are keyed to literal column names; what is missing is
the combination itself and the length check of spec section 7.  Operation
`aggregateCover` of spec section 4.1 is modelled by its steps 1-5,
reusing the source-derived `bb2percent` as `codeToPercent` (the two agree
on the null-free sequences produced by step 2). -/
def aggregateCover (codes : List CodeCell) (percents : List (Option ℚ)) :
    Except AggError (List ℚ) :=
  if codes.length = percents.length then
    let codes1 := List.zipWith (fun c p => if Option.isSome p then none else c) codes percents
    let codes2 := codes1.map (fun c => c.getD (BBElem.num 0))
    let nums := percents.map (fun p => p.getD 0)
    match bb2percent codes2 with
    | Except.error s => Except.error (AggError.invalidCoverCode s)
    | Except.ok vals => Except.ok (List.zipWith (fun a b => a + b) vals nums)
  else Except.error AggError.lengthMismatch

/-- Per-record combination exactly as the claims state it: null the code
when a percent is present, default remaining nulls to 0, convert the
code, add the percent. -/
def coverAt (c : CodeCell) (p : Option ℚ) : Except String ℚ :=
  match codeToPercent1 ((if Option.isSome p then none else c).getD (BBElem.num 0)) with
  | Except.ok q => Except.ok (q + p.getD 0)
  | Except.error e => Except.error e

/-- Embedding of the caller-visible in-place update performed by the
source `aggregate_cover` (src/sp2vc/prep_veg.py, line 143):
`veg[bb_scale][~veg[percent].isna()] = 0` writes the number 0 into the
caller's code column wherever the percent column is non-null; this is the
content of the caller's code column after the call (the later statements
rebind the local name to copies). -/
def aggregate_cover_inplace (codes : List CodeCell) (percents : List (Option ℚ)) :
    List CodeCell :=
  List.zipWith (fun c p => if Option.isSome p then some (BBElem.num 0) else c) codes percents

theorem aggregateCover_ok_spec (codes : List CodeCell) (percents : List (Option ℚ))
    (result : List ℚ) (hr : aggregateCover codes percents = Except.ok result) :
    codes.length = percents.length ∧ result.length = codes.length ∧
    ∀ (i : ℕ) (hc : i < codes.length) (hp : i < percents.length) (hres : i < result.length),
      coverAt (codes.get ⟨i, hc⟩) (percents.get ⟨i, hp⟩) =
        Except.ok (result.get ⟨i, hres⟩) := by
  by_cases hlen : codes.length = percents.length
  · refine ⟨hlen, ?_⟩
    simp only [aggregateCover, if_pos hlen] at hr
    cases hbb : bb2percent
        ((List.zipWith (fun c p => if Option.isSome p then none else c) codes percents).map
          (fun c => c.getD (BBElem.num 0))) with
    | error s => rw [hbb] at hr; cases hr
    | ok vals =>
      rw [hbb] at hr
      cases hr
      rw [bb2percent_eq_mapExcept] at hbb
      obtain ⟨hvlen, hvidx⟩ := mapExcept_ok_spec _ _ _ hbb
      have hc2len : ((List.zipWith (fun c p => if Option.isSome p then none else c)
          codes percents).map (fun c => c.getD (BBElem.num 0))).length = codes.length := by
        simp [List.length_zipWith, hlen]
      have hnlen : (percents.map (fun p => p.getD (0 : ℚ))).length = percents.length := by
        simp
      constructor
      · simp [List.length_zipWith, hvlen, hc2len, hnlen, hlen]
      · intro i hc hp hres
        have hrv : i < vals.length := by omega
        have hrn : i < (percents.map (fun p => p.getD (0 : ℚ))).length := by omega
        have hi2 : i < ((List.zipWith (fun c p => if Option.isSome p then none else c)
            codes percents).map (fun c => c.getD (BBElem.num 0))).length := by omega
        have hval := hvidx i hi2 hrv
        simp only [List.get_eq_getElem, List.getElem_map, List.getElem_zipWith] at hval
        simp only [List.get_eq_getElem, List.getElem_zipWith, List.getElem_map]
        rw [coverAt, hval]
  · simp only [aggregateCover, if_neg hlen] at hr
    cases hr

/-- C1: for equal-length, index-aligned inputs, every element of the
result equals the converted code plus the percent, after first nulling
the code wherever the percent is non-null and defaulting remaining nulls
to 0; in particular aggregating codes ["5", null] with percents
[null, 20] gives [87.5, 20]. -/
theorem aggregateCover_pointwise (codes : List CodeCell) (percents : List (Option ℚ))
    (result : List ℚ) (h : codes.length = percents.length)
    (hr : aggregateCover codes percents = Except.ok result) :
    result.length = codes.length ∧
    (∀ (i : ℕ) (hc : i < codes.length) (hp : i < percents.length) (hres : i < result.length),
      coverAt (codes.get ⟨i, hc⟩) (percents.get ⟨i, hp⟩) =
        Except.ok (result.get ⟨i, hres⟩)) ∧
    aggregateCover [some (BBElem.str "5"), none] [none, some 20] =
      Except.ok [(87.5 : ℚ), 20] := by
  obtain ⟨hlen, hrlen, hidx⟩ := aggregateCover_ok_spec codes percents result hr
  refine ⟨hrlen, hidx, ?_⟩
  rw [show aggregateCover [some (BBElem.str "5"), none] [none, some 20] =
    Except.ok [(87.5 : ℚ) + 0, 0 + 20] from rfl]
  norm_num

theorem aggregateCover_pointwise_app :
    aggregateCover [some (BBElem.str "5"), none] [none, some 20] =
      Except.ok [(87.5 : ℚ), 20] :=
  (aggregateCover_pointwise [some (BBElem.str "5"), none] [none, some 20]
    [(87.5 : ℚ), 20] rfl
    (by
      rw [show aggregateCover [some (BBElem.str "5"), none] [none, some 20] =
        Except.ok [(87.5 : ℚ) + 0, 0 + 20] from rfl]
      norm_num)).2.2

/-- C6: inputs of differing lengths fail with LengthMismatch regardless
of their contents, before any conversion is attempted, and never return a
truncated result. -/
theorem aggregateCover_length_mismatch (codes : List CodeCell)
    (percents : List (Option ℚ)) (h : codes.length ≠ percents.length) :
    aggregateCover codes percents = Except.error AggError.lengthMismatch := by
  simp only [aggregateCover, if_neg h]

theorem aggregateCover_length_mismatch_app :
    aggregateCover [some (BBElem.str "1"), some (BBElem.str "2")] [some 10] =
      Except.error AggError.lengthMismatch :=
  aggregateCover_length_mismatch [some (BBElem.str "1"), some (BBElem.str "2")]
    [some 10] (by decide)

/-- C7: a null in either input field is treated as 0 before combination:
a record with both inputs null yields cover 0, a null code contributes 0
to any record, and a null percent adds nothing to the converted code. -/
theorem aggregateCover_null_defaults (codes : List CodeCell) (percents : List (Option ℚ))
    (result : List ℚ) (i : ℕ)
    (hr : aggregateCover codes percents = Except.ok result)
    (hc : i < codes.length) (hp : i < percents.length) (hres : i < result.length)
    (hcn : codes.get ⟨i, hc⟩ = none) (hpn : percents.get ⟨i, hp⟩ = none) :
    result.get ⟨i, hres⟩ = 0 ∧
    (∀ p : Option ℚ, coverAt none p = Except.ok (p.getD 0)) ∧
    (∀ c : CodeCell, coverAt c none = codeToPercent1 (c.getD (BBElem.num 0))) := by
  refine ⟨?_, ?_, ?_⟩
  · obtain ⟨hlen, hrlen, hidx⟩ := aggregateCover_ok_spec codes percents result hr
    have hrec := hidx i hc hp hres
    rw [hcn, hpn] at hrec
    have hz : coverAt none none = Except.ok 0 := by
      rw [show coverAt none none = Except.ok ((0 : ℚ) + 0) from rfl]
      norm_num
    rw [hz] at hrec
    injection hrec with hv
    exact hv.symm
  · intro p
    cases p with
    | none =>
      rw [show coverAt none none = Except.ok ((0 : ℚ) + 0) from rfl]
      norm_num
    | some v =>
      rw [show coverAt none (some v) = Except.ok ((0 : ℚ) + v) from rfl]
      norm_num
  · intro c
    rw [coverAt]
    cases hcc : codeToPercent1 ((if Option.isSome (none : Option ℚ) then none else c).getD
        (BBElem.num 0)) with
    | error e =>
      simp only [Option.isSome_none, Bool.false_eq_true, if_false] at hcc ⊢
      rw [hcc]
    | ok q =>
      simp only [Option.isSome_none, Bool.false_eq_true, if_false] at hcc ⊢
      rw [hcc]
      simp

theorem aggregateCover_null_defaults_app :
    ([(0 : ℚ)].get ⟨0, Nat.one_pos⟩ = 0) ∧
    (∀ p : Option ℚ, coverAt none p = Except.ok (p.getD 0)) ∧
    (∀ c : CodeCell, coverAt c none = codeToPercent1 (c.getD (BBElem.num 0))) :=
  aggregateCover_null_defaults [none] [none] [(0 : ℚ)] 0
    (by
      rw [show aggregateCover [none] [none] = Except.ok [(0 : ℚ) + 0] from rfl]
      norm_num)
    Nat.one_pos Nat.one_pos Nat.one_pos rfl rfl

/-- C8: every successful aggregation returns one value per input record
and in the same record order: the i-th output is derived from the i-th
input pair; and the empty pair of inputs is valid and yields the empty
result. -/
theorem aggregateCover_length_order (codes : List CodeCell) (percents : List (Option ℚ))
    (result : List ℚ) (hr : aggregateCover codes percents = Except.ok result) :
    result.length = codes.length ∧ result.length = percents.length ∧
    (∀ (i : ℕ) (hc : i < codes.length) (hp : i < percents.length) (hres : i < result.length),
      coverAt (codes.get ⟨i, hc⟩) (percents.get ⟨i, hp⟩) =
        Except.ok (result.get ⟨i, hres⟩)) ∧
    aggregateCover ([] : List CodeCell) ([] : List (Option ℚ)) =
      Except.ok ([] : List ℚ) := by
  obtain ⟨hlen, hrlen, hidx⟩ := aggregateCover_ok_spec codes percents result hr
  exact ⟨hrlen, by omega, hidx, rfl⟩

theorem aggregateCover_length_order_app :
    ([(37.5 : ℚ) + 0, (17.5 : ℚ) + 0].length =
      [some (BBElem.str "3"), some (BBElem.str "2")].length) ∧
    coverAt (some (BBElem.str "3")) none = Except.ok ((37.5 : ℚ) + 0) ∧
    coverAt (some (BBElem.str "2")) none = Except.ok ((17.5 : ℚ) + 0) ∧
    aggregateCover ([] : List CodeCell) ([] : List (Option ℚ)) =
      Except.ok ([] : List ℚ) := by
  have h := aggregateCover_length_order [some (BBElem.str "3"), some (BBElem.str "2")]
    [none, none] [(37.5 : ℚ) + 0, (17.5 : ℚ) + 0] rfl
  exact ⟨h.1, h.2.2.1 0 (by norm_num) (by norm_num) (by norm_num),
    h.2.2.1 1 (by norm_num) (by norm_num) (by norm_num), h.2.2.2⟩

/-- C5 (code bug): on the caller's frame with codes ["5", null] and
percents [null, 20], the source `aggregate_cover` overwrites the caller's
code column in place, zeroing it at the index where a percent is
present, so the caller's original inputs are not preserved. -/
theorem aggregate_cover_inplace_mutates :
    aggregate_cover_inplace [some (BBElem.str "5"), none] [none, some 20] =
      [some (BBElem.str "5"), some (BBElem.num 0)] ∧
    aggregate_cover_inplace [some (BBElem.str "5"), none] [none, some 20] ≠
      [some (BBElem.str "5"), none] := by
  refine ⟨rfl, ?_⟩
  rw [show aggregate_cover_inplace [some (BBElem.str "5"), none] [none, some 20] =
    [some (BBElem.str "5"), some (BBElem.num 0)] from rfl]
  decide

end Sp2vc
